import Mathlib

/-!
Verification of the SonicVoice audio-reactive visualizer.

This file gives a shallow embedding, over exact rational arithmetic, of the
audio sampler (`src/hooks/useAudio.ts`), the per-frame particle animator of the
CrystalUniverse component with COUNT = 10000 (`src/components/WarpTunnel.tsx`),
the z-update of the other animator variants (`src/components/SceneContainer.tsx`
and the COUNT = 8000 CrystalUniverse), and the `handleStart` logic of the App
component, together with theorems settling the specification claims.

Modelling conventions:
* JavaScript numbers are modelled as rationals (`ℚ`); the floating-point
  library functions `Math.sin`, `Math.cos`, `Math.sqrt` are modelled as oracle
  parameters (`ℚ → ℚ`), and the shared stateful generator `Math.random` as a
  draw stream `ℕ → ℚ` consumed through an explicit draw counter threaded
  through the computation in source order.
* Storing into a `Uint8Array` truncates a value toward zero (`ToUint8`); for
  the already-clamped nonnegative values produced by the simulated generator
  this is `Int.floor`.
* React state updates (`setReady`, `setError`, …) are modelled by explicit
  state records returned by the transition functions.
* `THREE.Object3D` transforms are recorded as (position, rotation request,
  scale) triples; `updateMatrix`/`setMatrixAt` store exactly this data, so
  equality of instance matrices is equality of these triples.
-/

namespace SonicVoice

/-- Math.PI as JavaScript sees it: the IEEE-754 double closest to π,
exactly 884279719003555 / 2^48. -/
def mathPi : ℚ := 884279719003555 / 281474976710656

/-- JavaScript truncation toward zero (the integer conversion used by the
`%` remainder operator). -/
def jsTrunc (q : ℚ) : ℤ := if 0 ≤ q then ⌊q⌋ else -⌊-q⌋

/-- JavaScript `q % 1`: `q - trunc(q)` (remainder takes the dividend's sign). -/
def jsMod1 (q : ℚ) : ℚ := q - jsTrunc q

/-- Embedding of `getAverage` from `src/hooks/useAudio.ts` (lines 154-163 and
183-192, both closures are textually identical): `count = endIndex - startIndex`;
if `count <= 0` return `0`, otherwise sum `data[i]` for
`startIndex <= i < endIndex` and divide by `count`.  Out-of-range reads do not
occur under the index hypotheses used in the theorems below. -/
def getAverage (data : List ℚ) (startIndex endIndex : ℕ) : ℚ :=
  if endIndex ≤ startIndex then 0
  else (∑ i in Finset.Ico startIndex endIndex, data.getD i 0) /
    ((endIndex : ℚ) - (startIndex : ℚ))

/-- The ten-element demo array of the specification scenario. -/
def demoList : List ℚ := [10, 20, 30, 40, 50, 60, 70, 80, 90, 100]

/-- Embedding of the per-frame z-advance followed by wrap-correction shared by
all three animator variants:
`p.z += advance; if (p.z > halfLen) p.z -= 2 * halfLen;`.
In `WarpTunnel.tsx` the threshold is `TUNNEL_LENGTH / 2` and the subtrahend is
`TUNNEL_LENGTH` (so `halfLen = TUNNEL_LENGTH / 2`); in `SceneContainer.tsx`'s
`WarpTunnel` the threshold is `LENGTH` and the subtrahend is `LENGTH * 2`
(so `halfLen = LENGTH`). -/
def wrapAdvance (halfLen advance z : ℚ) : ℚ :=
  if halfLen < z + advance then z + advance - 2 * halfLen else z + advance

/-- Embedding of the mode switch of `WarpTunnel.tsx` (lines 75-78):
`Math.floor(time / cycleDuration) % 3` with `cycleDuration = 20`.
`Math.floor` is the real floor and JavaScript `%` is the truncated remainder
(`Int.tmod`); the two agree with the mathematical `mod` for the nonnegative
elapsed times the clock produces. -/
def modeIndex (time : ℚ) : ℤ := Int.tmod ⌊time / 20⌋ 3

/-!  The simulated-mode frequency generator (`useAudio.ts`, lines 120-152). -/

/-- The beat pulse `Math.sin(time * 3) > 0.7 ? 50 : 0`, shared by every bin of
one simulated frame (`s` is the sine oracle). -/
def simBeat (s : ℚ → ℚ) (t : ℚ) : ℚ := if 0.7 < s (t * 3) then 50 else 0

/-- One bin of the simulated frequency frame (`useAudio.ts` lines 126-151):
three layered waves, a band-dependent base pattern plus noise (`r i` is the
`Math.random()` draw of iteration `i`), the beat pulse, a clamp into
`[0, 255]`, and the `Uint8Array` store (truncation of the clamped nonnegative
value, i.e. `Int.floor`). -/
def simBin (s : ℚ → ℚ) (r : ℕ → ℚ) (t : ℚ) (i : ℕ) : ℤ :=
  let bassWave := s (t * 2 + (i : ℚ) * 0.02) * 0.5 + 0.5
  let midWave := s (t * 4 + (i : ℚ) * 0.1) * 0.3 + 0.5
  let highWave := s (t * 8 + (i : ℚ) * 0.3) * 0.2 + 0.3
  let value :=
    if i < 20 then bassWave * 200 + r i * 30
    else if i < 100 then midWave * 150 + r i * 40
    else highWave * 100 + r i * 20
  ⌊min 255 (max 0 (value + simBeat s t))⌋

/-- The advance of the internal simulated-time counter:
`simulatedTimeRef.current += 0.016` (`useAudio.ts` line 121). -/
def simNextTime (t : ℚ) : ℚ := t + 0.016

/-- The full simulated frequency frame of length `n` (the loop of
`useAudio.ts` lines 126-152), as bin values re-read from the `Uint8Array`. -/
def simFreq (s : ℚ → ℚ) (r : ℕ → ℚ) (t : ℚ) (n : ℕ) : List ℚ :=
  (List.range n).map (fun i => ((simBin s r t i : ℤ) : ℚ))

/-!  The `useAudio` hook state and transitions. -/

/-- Return value of `start()` (`useAudio.ts` lines 37-42). -/
structure StartResult where
  success : Bool
  errorMessage : Option String

/-- State held by the `useAudio` hook: the `ready`/`error`/`isSimulated` React
states, whether an `AnalyserNode` is configured, the retained data array, and
the simulated-time counter. -/
structure AudioState where
  ready : Bool
  error : Option String
  isSimulated : Bool
  hasAnalyser : Bool
  dataArray : Option (List ℚ)
  simTime : ℚ

/-- Initial hook state: not ready, no error, not simulated, no analyser, no
data array, simulated time `0`. -/
def initAudioState : AudioState := ⟨false, none, false, false, none, 0⟩

/-- The status message retained after a failed capture request
(`useAudio.ts` line 103). -/
def simulatedModeMsg : String := "マイクアクセスなし - シミュレートモードで動作中"

/-- The error message inside the failed `StartResult`
(`useAudio.ts` line 107). -/
def startFailResultMsg : String := "マイクアクセスに失敗しました。デモモードで動作します。"

/-- Embedding of `start()` (`useAudio.ts` lines 72-110).  `micOk` is the
outcome of the `getUserMedia` request: on success an analyser with 256 bins is
configured; on failure (the `catch` branch) a 256-entry array is still
allocated, `ready` is set, the simulated flag is raised, the status message is
retained, and the returned result carries `success = false`. -/
def start (micOk : Bool) (st : AudioState) : AudioState × StartResult :=
  if micOk then
    ({ st with
        ready := true
        error := none
        isSimulated := false
        hasAnalyser := true
        dataArray := some (List.replicate 256 0) },
      ⟨true, none⟩)
  else
    ({ st with
        dataArray := some (List.replicate 256 0)
        ready := true
        isSimulated := true
        error := some simulatedModeMsg },
      ⟨false, some startFailResultMsg⟩)

/-- The record returned by `getAudioData()` (`useAudio.ts` lines 25-32). -/
structure AudioDataM where
  frequency : List ℚ
  analyserPresent : Bool
  getAvg : ℕ → ℕ → ℚ

/-- Embedding of `getAudioData()` (`useAudio.ts` lines 118-199).  The source
first takes the simulated branch when `isSimulated && dataArrayRef.current`,
then returns the zero record when `!analyserRef.current || !dataArrayRef.current`,
and otherwise reads the device (`mic` is the frame the analyser delivers);
matching on `dataArray` first is case-for-case equivalent.  `s` and `r` are
the sine and `Math.random` oracles of this call. -/
def getAudioData (s : ℚ → ℚ) (r : ℕ → ℚ) (mic : List ℚ) (st : AudioState) :
    AudioState × AudioDataM :=
  match st.dataArray with
  | none => (st, ⟨[], false, fun _ _ => 0⟩)
  | some arr =>
    if st.isSimulated then
      let t := simNextTime st.simTime
      let freq := simFreq s r t arr.length
      ({ st with simTime := t, dataArray := some freq }, ⟨freq, false, getAverage freq⟩)
    else if st.hasAnalyser then
      ({ st with dataArray := some mic }, ⟨mic, true, getAverage mic⟩)
    else (st, ⟨[], false, fun _ _ => 0⟩)

/-!  The CrystalUniverse animator, COUNT = 10000 variant
(`src/components/WarpTunnel.tsx`). -/

/-- Particle pool size of the COUNT = 10000 CrystalUniverse variant. -/
def COUNT : ℕ := 10000

/-- Tunnel length of the COUNT = 10000 CrystalUniverse variant. -/
def TUNNEL_LENGTH : ℚ := 400

/-- Tunnel radius of the COUNT = 10000 CrystalUniverse variant. -/
def TUNNEL_RADIUS : ℚ := 20

/-- One pooled particle (`WarpTunnel.tsx` lines 36-49). -/
structure Particle where
  angle : ℚ
  radiusBase : ℚ
  z : ℚ
  speedOffset : ℚ
  rotationSpeed : ℚ
  id : ℕ
  randomColor : ℚ
deriving DecidableEq

/-- The particle pool initializer (`WarpTunnel.tsx` lines 31-51): `COUNT`
records built from sequential `Math.random()` draws, six per particle, in
source order (`rand` is the draw stream). -/
def mkParticles (rand : ℕ → ℚ) : List Particle :=
  (List.range COUNT).map (fun i =>
    let angle := rand (6 * i) * mathPi * 2
    let radiusOffset := rand (6 * i + 1)
    { angle := angle
      radiusBase := TUNNEL_RADIUS * (0.4 + radiusOffset * 1.5)
      z := rand (6 * i + 2) * TUNNEL_LENGTH - TUNNEL_LENGTH / 2
      speedOffset := 0.5 + rand (6 * i + 3) * 1.5
      rotationSpeed := (rand (6 * i + 4) - 0.5) * 2
      id := i
      randomColor := rand (6 * i + 5) })

/-- The per-frame inputs shared by every particle of one `useFrame` call:
elapsed time, the frequency frame behind `getAverage`, the smoothed cursor
position, the camera position, and the `Math.sin`/`Math.cos`/`Math.sqrt`/
`Math.random` oracles. -/
structure FrameInput where
  time : ℚ
  freq : List ℚ
  mouseX : ℚ
  mouseY : ℚ
  camX : ℚ
  camY : ℚ
  camZ : ℚ
  fsin : ℚ → ℚ
  fcos : ℚ → ℚ
  fsqrt : ℚ → ℚ
  frand : ℕ → ℚ

/-- `bass = getAverage(0, 10) / 255` (`WarpTunnel.tsx` line 59). -/
def bassOf (fi : FrameInput) : ℚ := getAverage fi.freq 0 10 / 255

/-- `mids = getAverage(10, 100) / 255` (`WarpTunnel.tsx` line 60). -/
def midsOf (fi : FrameInput) : ℚ := getAverage fi.freq 10 100 / 255

/-- `highs = getAverage(100, 200) / 255` (`WarpTunnel.tsx` line 61). -/
def highsOf (fi : FrameInput) : ℚ := getAverage fi.freq 100 200 / 255

/-- The mode-dependent base speed (`WarpTunnel.tsx` lines 86-89): `20`
overwritten by one of the three mode branches; `modeIndex` always hits one of
them for nonnegative time. -/
def speedOf (fi : FrameInput) : ℚ :=
  let m := modeIndex fi.time
  if m = 0 then 60 + bassOf fi * 50
  else if m = 1 then 15 + bassOf fi * 10
  else if m = 2 then 30 + midsOf fi * 30
  else 20

/-- The z-update of one particle (`WarpTunnel.tsx` lines 91-94):
`p.z += speed * p.speedOffset * 0.016` followed by the tunnel wrap. -/
def newZ (fi : FrameInput) (p : Particle) : ℚ :=
  wrapAdvance (TUNNEL_LENGTH / 2) (speedOf fi * p.speedOffset * 0.016) p.z

/-- A rotation request on the dummy object: either the three Euler angles
assigned in the COSMIC/DIAMOND branches, or the `lookAt` call of the PRISM
branch recorded with its target (the camera position) and the position the
dummy holds at that moment. -/
inductive Rot where
  | euler (x y z : ℚ)
  | lookAt (target pos : ℚ × ℚ × ℚ)
deriving DecidableEq

/-- The data written into one instance-matrix slot by
`dummy.updateMatrix(); setMatrixAt(i, dummy.matrix)`. -/
structure Transform where
  position : ℚ × ℚ × ℚ
  rotation : Rot
  scale : ℚ × ℚ × ℚ
deriving DecidableEq

/-- The color written by `setColorAt(i, color)`, recorded as the `setHSL`
arguments. -/
structure ColorHSL where
  h : ℚ
  s : ℚ
  l : ℚ
deriving DecidableEq

/-- The body of the particle loop (`WarpTunnel.tsx` lines 81-178) for one
particle: returns the updated particle, the transform and color written into
slot `i`, and the advanced `Math.random` draw counter (`k` counts the draws
already consumed this frame; `fi.frand` is the draw stream). -/
def instStep (fi : FrameInput) (p : Particle) (k : ℕ) :
    Particle × Transform × ColorHSL × ℕ :=
  let bass := bassOf fi
  let mids := midsOf fi
  let highs := highsOf fi
  let m := modeIndex fi.time
  let z' := newZ fi p
  let zFactor := (z' + TUNNEL_LENGTH / 2) / TUNNEL_LENGTH
  let curveX := fi.fsin (fi.time * 0.5 + z' * 0.01) * 5 + fi.mouseX * zFactor * 2
  let curveY := fi.fcos (fi.time * 0.3 + z' * 0.01) * 5 + fi.mouseY * zFactor * 2
  let r := p.radiusBase + bass * 5 * fi.fsin (z' * 0.1 + fi.time * 3)
  let x := curveX + fi.fcos p.angle * r
  let y := curveY + fi.fsin p.angle * r
  let styled : Rot × (ℚ × ℚ × ℚ) × ColorHSL × ℕ :=
    if m = 0 then
      (Rot.euler (mathPi / 2) 0 p.angle, (1, 10 + bass * 20, 1),
        ⟨0.6 + fi.fsin (z' * 0.05 + fi.time) * 0.15, 0.9, 0.4 + highs * 0.6⟩, k)
    else if m = 1 then
      let rot := Rot.euler (fi.time * p.rotationSpeed) (fi.time * p.rotationSpeed)
        (fi.time * p.rotationSpeed)
      let sc := 1 + bass * 3
      if fi.frand k < 0.02 + highs * 0.1 then
        (rot, (sc, sc * 4, sc), ⟨fi.frand (k + 1), 1, 0.9⟩, k + 2)
      else
        (rot, (sc, sc * 4, sc), ⟨0.55, 0.4, 0.1 + bass * 0.4 + highs * 0.5⟩, k + 1)
    else
      (Rot.lookAt (fi.camX, fi.camY, fi.camZ) (x, y, z'), (2, 2, 2),
        ⟨jsMod1 (p.angle / (mathPi * 2) + fi.time * 0.1 + z' * 0.01), 1,
          0.5 + mids * 0.5⟩, k)
  let dx := x - fi.mouseX * 0.2
  let dy := y - fi.mouseY * 0.2
  let dist := fi.fsqrt (dx * dx + dy * dy)
  if dist < 8 then
    let force := (8 - dist) / 8
    ({ p with z := z' },
      ⟨(x + dx * force * 0.5, y + dy * force * 0.5, z'), styled.1,
        (styled.2.1.1 * (1 + force * 2), styled.2.1.2.1 * (1 + force * 2),
          styled.2.1.2.2 * (1 + force * 2))⟩,
      ⟨fi.frand styled.2.2.2, 1, 0.8⟩, styled.2.2.2 + 1)
  else
    ({ p with z := z' }, ⟨(x, y, z'), styled.1, styled.2.1⟩, styled.2.2.1,
      styled.2.2.2)

/-- The transform part of `instStep` alone.  It consumes no `Math.random`
draw: the sparkle and force-field draws only select colors. -/
def instTransform (fi : FrameInput) (p : Particle) : Transform :=
  let bass := bassOf fi
  let m := modeIndex fi.time
  let z' := newZ fi p
  let zFactor := (z' + TUNNEL_LENGTH / 2) / TUNNEL_LENGTH
  let curveX := fi.fsin (fi.time * 0.5 + z' * 0.01) * 5 + fi.mouseX * zFactor * 2
  let curveY := fi.fcos (fi.time * 0.3 + z' * 0.01) * 5 + fi.mouseY * zFactor * 2
  let r := p.radiusBase + bass * 5 * fi.fsin (z' * 0.1 + fi.time * 3)
  let x := curveX + fi.fcos p.angle * r
  let y := curveY + fi.fsin p.angle * r
  let rotScl : Rot × (ℚ × ℚ × ℚ) :=
    if m = 0 then
      (Rot.euler (mathPi / 2) 0 p.angle, (1, 10 + bass * 20, 1))
    else if m = 1 then
      (Rot.euler (fi.time * p.rotationSpeed) (fi.time * p.rotationSpeed)
        (fi.time * p.rotationSpeed), (1 + bass * 3, (1 + bass * 3) * 4, 1 + bass * 3))
    else
      (Rot.lookAt (fi.camX, fi.camY, fi.camZ) (x, y, z'), (2, 2, 2))
  let dx := x - fi.mouseX * 0.2
  let dy := y - fi.mouseY * 0.2
  let dist := fi.fsqrt (dx * dx + dy * dy)
  if dist < 8 then
    let force := (8 - dist) / 8
    ⟨(x + dx * force * 0.5, y + dy * force * 0.5, z'), rotScl.1,
      (rotScl.2.1 * (1 + force * 2), rotScl.2.2.1 * (1 + force * 2),
        rotScl.2.2.2 * (1 + force * 2))⟩
  else
    ⟨(x, y, z'), rotScl.1, rotScl.2⟩

/-- The particle loop (`WarpTunnel.tsx` lines 81-179) processed in source
order starting at slot `i` with draw counter `k`: returns the mutated pool,
the list of `(slot, transform, color)` writes, and the final draw counter. -/
def runSeq (fi : FrameInput) : List Particle → ℕ → ℕ →
    List Particle × List (ℕ × Transform × ColorHSL) × ℕ
  | [], _, k => ([], [], k)
  | p :: ps, i, k =>
    let st := instStep fi p k
    let rest := runSeq fi ps (i + 1) st.2.2.2
    (st.1 :: rest.1, (i, st.2.1, st.2.2.1) :: rest.2.1, rest.2.2)

/-- The particle loop processed in an arbitrary order: `order` lists the
particle indices in processing sequence, each still writing to its own slot,
with the shared draw counter threaded along the processing sequence. -/
def runOrder (fi : FrameInput) (ps : List Particle) :
    List ℕ → ℕ → List (ℕ × Transform × ColorHSL)
  | [], _ => []
  | i :: rest, k =>
    match ps[i]? with
    | some p =>
      let st := instStep fi p k
      (i, st.2.1, st.2.2.1) :: runOrder fi ps rest st.2.2.2
    | none => runOrder fi ps rest k

/-- The color written into a given slot by a list of writes. -/
def colorAt (writes : List (ℕ × Transform × ColorHSL)) (slot : ℕ) :
    Option ColorHSL :=
  (writes.find? (fun w => w.1 == slot)).map (fun w => w.2.2)

/-- The instance count passed to the `instancedMesh`
(`WarpTunnel.tsx` line 186: `args=[undefined, undefined, COUNT]`). -/
def instancedMeshCount : ℕ := COUNT

/-!  The other animator variants' z-updates. -/

/-- One particle of the `WarpTunnel` variant in `SceneContainer.tsx`
(lines 99-117, COUNT = 2000). -/
structure WTParticle where
  x : ℚ
  y : ℚ
  z : ℚ
  originalZ : ℚ
  speedMod : ℚ
  colorPhase : ℚ
deriving DecidableEq

/-- The per-frame particle update of the COUNT = 2000 `WarpTunnel` variant
(`SceneContainer.tsx` lines 150-156): only `z` is advanced
(`p.z += baseSpeed * p.speedMod * delta`) and wrapped
(`if (p.z > LENGTH) p.z -= LENGTH * 2` with `LENGTH = 100`). -/
def wtUpdateZ (baseSpeed delta : ℚ) (p : WTParticle) : WTParticle :=
  { p with z := wrapAdvance 100 (baseSpeed * p.speedMod * delta) p.z }

/-- The z-update of the COUNT = 8000 CrystalUniverse variant
(`WarpTunnel.tsx` lines 272-275, `TUNNEL_LENGTH = 300`):
`p.z += baseSpeed * p.speedSpeed * 0.016` followed by the tunnel wrap. -/
def cu8000UpdateZ (baseSpeed speedSpeed z : ℚ) : ℚ :=
  wrapAdvance 150 (baseSpeed * speedSpeed * 0.016) z

/-!  The App component (`src/App.tsx` and the variant in
`src/unnamed/part_001`). -/

/-- State of the App component: the audio hook state plus the `started`
flag. -/
structure AppState where
  audio : AudioState
  started : Bool

/-- Initial App state: fresh audio hook, not started. -/
def initAppState : AppState := ⟨initAudioState, false⟩

/-- Embedding of `handleStart` (`App.tsx` lines 10-15):
`await start(); if (!error) setStarted(true);`.  The `error` read by the guard
is the value captured by the closure when it was created — i.e. the value
`capturedError` held before `start()` resolved — not the value `start()` just
stored, because the closure's binding comes from the render that created it. -/
def handleStart (capturedError : Option String) (micOk : Bool) (st : AppState) :
    AppState :=
  let afterStart : AppState := ⟨(start micOk st.audio).1, st.started⟩
  if capturedError = none then ⟨afterStart.audio, true⟩ else afterStart

/-!  Concrete fixtures used by witnesses and counterexamples. -/

/-- A frame state in DIAMOND_CAVE mode (`time = 20`), silent audio frame,
cursor at the origin, sine oracle constantly `0`, cosine oracle constantly
`1`, square-root oracle constantly `11` (its only evaluation point is
`125 = 10² + 5²`, whose true root `≈ 11.18` also exceeds the force-field
radius `8`), and a draw stream whose first draw is `0` (below the sparkle
threshold `0.02`) while later draws are `9/10` (above it). -/
def cexFrameInput : FrameInput :=
  ⟨20, List.replicate 200 0, 0, 0, 0, 0, 5, fun _ => 0, fun _ => 1, fun _ => 11,
    fun n => if n = 0 then 0 else 9 / 10⟩

/-- A particle on the positive x-axis at radius 10, mid-tunnel. -/
def cexParticle (i : ℕ) : Particle := ⟨0, 10, 0, 1, 0, i, 0⟩

/-- A constant `-1` sine oracle: an admissible value profile for `Math.sin`
(bounded by 1 in absolute value), matching the slow bass wave near the bottom
of its cycle. -/
def sNegOne : ℚ → ℚ := fun _ => -1

/-- A constant `0` sine oracle. -/
def sZero : ℚ → ℚ := fun _ => 0

/-- A constant `0` noise stream (admissible: `Math.random() ∈ [0, 1)`). -/
def rZero : ℕ → ℚ := fun _ => 0

/-!  Helper lemmas. -/

/-- Sum of an initial segment of a list, written through `getD`. -/
lemma take_sum_eq_sum_range_getD (l : List ℚ) :
    ∀ n : ℕ, n ≤ l.length → (l.take n).sum = ∑ j in Finset.range n, l.getD j 0 := by
  induction l with
  | nil =>
    intro n hn
    have : n = 0 := Nat.le_zero.mp (by simpa using hn)
    subst this
    simp
  | cons a t ih =>
    intro n hn
    cases n with
    | zero => simp
    | succ m =>
      have hm : m ≤ t.length := by simpa using hn
      have hrec := ih m hm
      calc ((a :: t).take (m + 1)).sum
          = a + (t.take m).sum := by simp
        _ = a + ∑ j in Finset.range m, t.getD j 0 := by rw [hrec]
        _ = ∑ j in Finset.range (m + 1), (a :: t).getD j 0 := by
            rw [Finset.sum_range_succ']
            simp [add_comm]

/-- The `getAverage` sum over `[s, e)` is the sum of the slice
`(data.drop s).take (e - s)`. -/
lemma sum_Ico_getD_eq_slice_sum (l : List ℚ) (s e : ℕ) (he : e ≤ l.length) :
    (∑ i in Finset.Ico s e, l.getD i 0) = ((l.drop s).take (e - s)).sum := by
  have hlen : e - s ≤ (l.drop s).length := by
    simp only [List.length_drop]
    omega
  rw [take_sum_eq_sum_range_getD _ _ hlen]
  rw [Finset.sum_Ico_eq_sum_range]
  refine Finset.sum_congr rfl ?_
  intro j _
  have : (l.drop s).getD j 0 = l.getD (s + j) 0 := by
    simp [List.getD_eq_getElem?_getD, List.getElem?_drop]
  rw [this]

/-- Lower bound of `getAverage` from a pointwise lower bound on the range. -/
lemma le_getAverage (l : List ℚ) (s e : ℕ) (lo : ℚ) (hse : s < e)
    (h : ∀ i, s ≤ i → i < e → lo ≤ l.getD i 0) : lo ≤ getAverage l s e := by
  have hcast : (s : ℚ) < (e : ℚ) := by exact_mod_cast hse
  have hpos : (0 : ℚ) < (e : ℚ) - (s : ℚ) := by linarith
  rw [getAverage, if_neg (by omega)]
  rw [le_div_iff₀ hpos]
  have hcard : (((Finset.Ico s e).card : ℕ) : ℚ) = (e : ℚ) - (s : ℚ) := by
    rw [Nat.card_Ico]
    push_cast [Nat.cast_sub (le_of_lt hse)]
    ring
  have hsum : ∑ i in Finset.Ico s e, lo ≤ ∑ i in Finset.Ico s e, l.getD i 0 := by
    refine Finset.sum_le_sum ?_
    intro i hi
    rcases Finset.mem_Ico.mp hi with ⟨h1, h2⟩
    exact h i h1 h2
  have hconst : (∑ _i in Finset.Ico s e, lo) = ((Finset.Ico s e).card : ℚ) * lo := by
    rw [Finset.sum_const, nsmul_eq_mul]
  rw [hconst, hcard] at hsum
  linarith

/-- Upper bound of `getAverage` from a pointwise upper bound on the range. -/
lemma getAverage_le (l : List ℚ) (s e : ℕ) (hi : ℚ) (hse : s < e)
    (h : ∀ i, s ≤ i → i < e → l.getD i 0 ≤ hi) : getAverage l s e ≤ hi := by
  have hcast : (s : ℚ) < (e : ℚ) := by exact_mod_cast hse
  have hpos : (0 : ℚ) < (e : ℚ) - (s : ℚ) := by linarith
  rw [getAverage, if_neg (by omega)]
  rw [div_le_iff₀ hpos]
  have hcard : (((Finset.Ico s e).card : ℕ) : ℚ) = (e : ℚ) - (s : ℚ) := by
    rw [Nat.card_Ico]
    push_cast [Nat.cast_sub (le_of_lt hse)]
    ring
  have hsum : ∑ i in Finset.Ico s e, l.getD i 0 ≤ ∑ i in Finset.Ico s e, hi := by
    refine Finset.sum_le_sum ?_
    intro i hi'
    rcases Finset.mem_Ico.mp hi' with ⟨h1, h2⟩
    exact h i h1 h2
  have hconst : (∑ _i in Finset.Ico s e, hi) = ((Finset.Ico s e).card : ℚ) * hi := by
    rw [Finset.sum_const, nsmul_eq_mul]
  rw [hconst, hcard] at hsum
  linarith

/-- The length of a simulated frequency frame is the requested bin count. -/
lemma simFreq_length (s : ℚ → ℚ) (r : ℕ → ℚ) (t : ℚ) (n : ℕ) :
    (simFreq s r t n).length = n := by
  simp [simFreq]

/-- The particle pool has exactly `COUNT` entries. -/
lemma mkParticles_length (rand : ℕ → ℚ) : (mkParticles rand).length = COUNT := by
  simp [mkParticles]

/-- The loop body leaves every particle field but `z` untouched, and updates
`z` exactly by `newZ`. -/
lemma instStep_fst (fi : FrameInput) (p : Particle) (k : ℕ) :
    (instStep fi p k).1 = { p with z := newZ fi p } := by
  simp only [instStep]
  split <;> rfl

/-- The loop body writes exactly the transform computed by `instTransform`:
the `Math.random` draw counter influences only the color. -/
lemma instStep_transform (fi : FrameInput) (p : Particle) (k : ℕ) :
    (instStep fi p k).2.1 = instTransform fi p := by
  simp only [instStep, instTransform]
  split_ifs <;> rfl

/-- The sequential loop produces one write per particle. -/
lemma runSeq_writes_length (fi : FrameInput) :
    ∀ (ps : List Particle) (i k : ℕ), ((runSeq fi ps i k).2.1).length = ps.length := by
  intro ps
  induction ps with
  | nil => intro i k; rfl
  | cons p ps ih =>
    intro i k
    simp only [runSeq, List.length_cons]
    rw [ih]

/-- The sequential loop writes exactly the slots `i, i+1, …, i+|ps|-1`,
in order. -/
lemma runSeq_writes_slots (fi : FrameInput) :
    ∀ (ps : List Particle) (i k : ℕ),
      ((runSeq fi ps i k).2.1).map (fun w => w.1) = List.range' i ps.length := by
  intro ps
  induction ps with
  | nil => intro i k; rfl
  | cons p ps ih =>
    intro i k
    simp only [runSeq, List.length_cons, List.map_cons, List.range'_succ]
    rw [ih]

/-- The sequential loop updates the pool pointwise by `newZ`, independently of
the draw counter. -/
lemma runSeq_particles (fi : FrameInput) :
    ∀ (ps : List Particle) (i k : ℕ),
      (runSeq fi ps i k).1 = ps.map (fun q => { q with z := newZ fi q }) := by
  intro ps
  induction ps with
  | nil => intro i k; rfl
  | cons p ps ih =>
    intro i k
    simp only [runSeq, List.map_cons]
    rw [ih, instStep_fst]

/-- `getAverage` over an all-zero array is zero for every index pair. -/
lemma getAverage_replicate_zero (n s e : ℕ) :
    getAverage (List.replicate n (0 : ℚ)) s e = 0 := by
  rw [getAverage]
  split_ifs with h
  · rfl
  · have hz : ∀ i ∈ Finset.Ico s e, (List.replicate n (0 : ℚ)).getD i 0 = 0 := by
      intro i _
      rw [List.getD_eq_getElem?_getD, List.getElem?_replicate]
      split <;> rfl
    rw [Finset.sum_congr rfl hz]
    simp

/-- At elapsed time 20 the animator is in mode 1 (DIAMOND_CAVE). -/
lemma modeIndex_twenty : modeIndex (20 : ℚ) = 1 := by
  have h : ((20 : ℚ) / 20) = 1 := by norm_num
  rw [modeIndex, h, Int.floor_one]
  decide

/-- In-range `getD` reads are list elements, hence inherit elementwise bounds. -/
lemma getD_bounds_of_mem (l : List ℚ) (hl : ∀ x ∈ l, 0 ≤ x ∧ x ≤ 255)
    (i : ℕ) (hiLen : i < l.length) : 0 ≤ l.getD i 0 ∧ l.getD i 0 ≤ 255 := by
  have hget : l.getD i 0 = l[i] := by
    simp [List.getD_eq_getElem?_getD, List.getElem?_eq_getElem hiLen]
  rw [hget]
  exact hl _ (l.getElem_mem hiLen)

/-- Reading a simulated frame at an in-range index gives the corresponding
bin value. -/
lemma simFreq_getD (s : ℚ → ℚ) (r : ℕ → ℚ) (t : ℚ) (n i : ℕ) (hi : i < n) :
    (simFreq s r t n).getD i 0 = ((simBin s r t i : ℤ) : ℚ) := by
  rw [simFreq, List.getD_eq_getElem?_getD, List.getElem?_map, List.getElem?_range hi]
  rfl

/-- The beat pulse is either `0` or `50`. -/
lemma simBeat_cases (s : ℚ → ℚ) (t : ℚ) : simBeat s t = 0 ∨ simBeat s t = 50 := by
  rw [simBeat]
  split_ifs
  · exact Or.inr rfl
  · exact Or.inl rfl

/-- The clamp-then-truncate store keeps every value in `[0, 255]`,
whatever the waves and noise produce. -/
lemma floor_clamp_bounds (x : ℚ) :
    0 ≤ ⌊min 255 (max 0 x)⌋ ∧ ⌊min 255 (max 0 x)⌋ ≤ 255 := by
  constructor
  · refine Int.le_floor.mpr ?_
    push_cast
    exact le_min (by norm_num) (le_max_left 0 x)
  · have h1 : min 255 (max 0 x) ≤ 255 := min_le_left _ _
    have h2 : ⌊min 255 (max 0 x)⌋ ≤ ⌊(255 : ℚ)⌋ := Int.floor_le_floor h1
    have h3 : ⌊(255 : ℚ)⌋ = 255 := by norm_num
    omega

/-- Every simulated bin is a byte value. -/
lemma simBin_mem (s : ℚ → ℚ) (r : ℕ → ℚ) (t : ℚ) (i : ℕ) :
    0 ≤ simBin s r t i ∧ simBin s r t i ≤ 255 := by
  simp only [simBin]
  exact floor_clamp_bounds _

/-- Bass-band lower bound: when the slow wave's sine value at this bin is
nonnegative (and bounded by 1, as `Math.sin` is) and the noise draw is
nonnegative, a bass bin is at least `100` plus the beat pulse. -/
lemma simBin_bass_lower (s : ℚ → ℚ) (r : ℕ → ℚ) (t : ℚ) (i : ℕ) (hi : i < 20)
    (hs0 : 0 ≤ s (t * 2 + (i : ℚ) * 0.02)) (hr0 : 0 ≤ r i) :
    (100 : ℚ) + simBeat s t ≤ ((simBin s r t i : ℤ) : ℚ) := by
  simp only [simBin]
  rw [if_pos hi]
  set a := s (t * 2 + (i : ℚ) * 0.02) with ha
  have hv : (100 : ℚ) ≤ (a * 0.5 + 0.5) * 200 + r i * 30 := by nlinarith
  rcases simBeat_cases s t with h | h <;> rw [h]
  · have hle : (100 : ℚ) ≤
        min 255 (max 0 ((a * 0.5 + 0.5) * 200 + r i * 30 + 0)) := by
      refine le_min (by norm_num) (le_trans (by linarith) (le_max_right 0 _))
    have hfl : (100 : ℤ) ≤ ⌊min 255 (max 0 ((a * 0.5 + 0.5) * 200 + r i * 30 + 0))⌋ :=
      Int.le_floor.mpr (by exact_mod_cast hle)
    have hc : (100 : ℚ) ≤
        ((⌊min 255 (max 0 ((a * 0.5 + 0.5) * 200 + r i * 30 + 0))⌋ : ℤ) : ℚ) := by
      exact_mod_cast hfl
    linarith
  · have hle : (150 : ℚ) ≤
        min 255 (max 0 ((a * 0.5 + 0.5) * 200 + r i * 30 + 50)) := by
      refine le_min (by norm_num) (le_trans (by linarith) (le_max_right 0 _))
    have hfl : (150 : ℤ) ≤ ⌊min 255 (max 0 ((a * 0.5 + 0.5) * 200 + r i * 30 + 50))⌋ :=
      Int.le_floor.mpr (by exact_mod_cast hle)
    have hc : (150 : ℚ) ≤
        ((⌊min 255 (max 0 ((a * 0.5 + 0.5) * 200 + r i * 30 + 50))⌋ : ℤ) : ℚ) := by
      exact_mod_cast hfl
    linarith

/-- High-band upper bound: with the sine value bounded by 1 and the noise draw
below 1, a high bin is at most `69` plus the beat pulse. -/
lemma simBin_high_upper (s : ℚ → ℚ) (r : ℕ → ℚ) (t : ℚ) (i : ℕ) (hi100 : 100 ≤ i)
    (hs1 : s (t * 8 + (i : ℚ) * 0.3) ≤ 1) (hr1 : r i < 1) :
    ((simBin s r t i : ℤ) : ℚ) ≤ 69 + simBeat s t := by
  have h20 : ¬ i < 20 := by omega
  have h100 : ¬ i < 100 := by omega
  simp only [simBin]
  rw [if_neg h20, if_neg h100]
  set a := s (t * 8 + (i : ℚ) * 0.3) with ha
  have hv : (a * 0.2 + 0.3) * 100 + r i * 20 < 70 := by nlinarith
  rcases simBeat_cases s t with h | h <;> rw [h]
  · have hlt : min 255 (max 0 ((a * 0.2 + 0.3) * 100 + r i * 20 + 0)) < 70 :=
      lt_of_le_of_lt (min_le_right _ _) (max_lt (by norm_num) (by linarith))
    have hfl : ⌊min 255 (max 0 ((a * 0.2 + 0.3) * 100 + r i * 20 + 0))⌋ < 70 :=
      Int.floor_lt.mpr (by exact_mod_cast hlt)
    have hle : ⌊min 255 (max 0 ((a * 0.2 + 0.3) * 100 + r i * 20 + 0))⌋ ≤ 69 := by omega
    have hc : ((⌊min 255 (max 0 ((a * 0.2 + 0.3) * 100 + r i * 20 + 0))⌋ : ℤ) : ℚ) ≤
        (69 : ℚ) := by
      exact_mod_cast hle
    linarith
  · have hlt : min 255 (max 0 ((a * 0.2 + 0.3) * 100 + r i * 20 + 50)) < 120 :=
      lt_of_le_of_lt (min_le_right _ _) (max_lt (by norm_num) (by linarith))
    have hfl : ⌊min 255 (max 0 ((a * 0.2 + 0.3) * 100 + r i * 20 + 50))⌋ < 120 :=
      Int.floor_lt.mpr (by exact_mod_cast hlt)
    have hle : ⌊min 255 (max 0 ((a * 0.2 + 0.3) * 100 + r i * 20 + 50))⌋ ≤ 119 := by
      omega
    have hc : ((⌊min 255 (max 0 ((a * 0.2 + 0.3) * 100 + r i * 20 + 50))⌋ : ℤ) : ℚ) ≤
        (119 : ℚ) := by
      exact_mod_cast hle
    linarith

/-!  C1. -/

/-- C1: for byte-valued data and valid indices `start < end <= length`,
`getAverage` returns exactly the arithmetic mean of the entries at indices
`start..end-1` (the sum of the slice divided by `end - start`), a value in
`[0, 255]`; for `end <= start` it returns `0`; and on the ten-element demo
array `[10, 20, ..., 100]` the call `getAverage 0 10` returns exactly `55`. -/
theorem getAverage_range_mean_spec :
    (∀ (data : List ℚ) (s e : ℕ), (∀ x ∈ data, 0 ≤ x ∧ x ≤ 255) → s < e →
      e ≤ data.length →
      getAverage data s e = ((data.drop s).take (e - s)).sum / ((e : ℚ) - (s : ℚ)) ∧
      0 ≤ getAverage data s e ∧ getAverage data s e ≤ 255) ∧
    (∀ (data : List ℚ) (s e : ℕ), e ≤ s → getAverage data s e = 0) ∧
    getAverage demoList 0 10 = 55 := by
  refine ⟨?_, ?_, ?_⟩
  · intro data s e hbytes hse hlen
    refine ⟨?_, ?_, ?_⟩
    · rw [getAverage, if_neg (by omega), sum_Ico_getD_eq_slice_sum data s e hlen]
    · refine le_getAverage data s e 0 hse ?_
      intro i h1 h2
      exact (getD_bounds_of_mem data hbytes i (lt_of_lt_of_le h2 hlen)).1
    · refine getAverage_le data s e 255 hse ?_
      intro i h1 h2
      exact (getD_bounds_of_mem data hbytes i (lt_of_lt_of_le h2 hlen)).2
  · intro data s e hle
    rw [getAverage, if_pos hle]
  · norm_num [getAverage, demoList, Finset.sum_Ico_eq_sum_range, Finset.sum_range_succ]

/-- Witness for C1 at concrete inputs: the demo array is byte-valued, so its
range average over `[0, 10)` is `55 = 550 / 10` and lies in `[0, 255]`, and an
inverted range returns `0`. -/
theorem getAverage_range_mean_spec_witness :
    (getAverage demoList 0 10 =
      ((demoList.drop 0).take 10).sum / ((10 : ℚ) - (0 : ℚ)) ∧
      0 ≤ getAverage demoList 0 10 ∧ getAverage demoList 0 10 ≤ 255) ∧
    getAverage demoList 10 3 = 0 := by
  constructor
  · exact getAverage_range_mean_spec.1 demoList 0 10 (by decide) (by decide) (by decide)
  · exact getAverage_range_mean_spec.2.1 demoList 10 3 (by decide)

/-!  C2. -/

/-- C2: whenever the longitudinal coordinate lies in
`[-tunnelLength/2, tunnelLength/2]` before the frame and the per-frame advance
is nonnegative and at most the tunnel length (`2 * halfLen`), the coordinate
after advance and wrap-correction again lies in
`[-tunnelLength/2, tunnelLength/2]`.  This covers the wrap sites of all three
animator variants (`halfLen = 200`, `150`, and `100`). -/
theorem z_wrap_invariant (halfLen advance z : ℚ)
    (hadv0 : 0 ≤ advance) (hadv1 : advance ≤ 2 * halfLen)
    (hz0 : -halfLen ≤ z) (hz1 : z ≤ halfLen) :
    -halfLen ≤ wrapAdvance halfLen advance z ∧
      wrapAdvance halfLen advance z ≤ halfLen := by
  rw [wrapAdvance]
  split_ifs with h
  · constructor <;> linarith
  · constructor <;> linarith

/-- Witness for C2: from `z = 150` with advance `100` in the
`TUNNEL_LENGTH = 400` variant, the wrapped coordinate is `-150`, inside
`[-200, 200]`. -/
theorem z_wrap_invariant_witness :
    (-(200 : ℚ) ≤ wrapAdvance 200 100 150 ∧ wrapAdvance 200 100 150 ≤ 200) ∧
      wrapAdvance 200 100 150 = -150 := by
  constructor
  · exact z_wrap_invariant 200 100 150 (by norm_num) (by norm_num) (by norm_num)
      (by norm_num)
  · norm_num [wrapAdvance]

/-!  C3. -/

/-- C3: mode selection is a pure function of elapsed time.  For every
nonnegative elapsed time `t` the active mode index is exactly
`⌊t / 20⌋ mod 3`, a value in `{0, 1, 2}` (so exactly one of the three modes is
active), and two frames with equal elapsed times produce equal mode indices;
no other state enters the computation. -/
theorem mode_selection_pure (t : ℚ) (ht : 0 ≤ t) :
    modeIndex t = ⌊t / 20⌋ % 3 ∧
    0 ≤ modeIndex t ∧ modeIndex t < 3 ∧
    ∀ t' : ℚ, t' = t → modeIndex t' = modeIndex t := by
  have hfloor : 0 ≤ ⌊t / 20⌋ := Int.floor_nonneg.mpr (by positivity)
  obtain ⟨n, hn⟩ := Int.eq_ofNat_of_zero_le hfloor
  have heq : modeIndex t = ⌊t / 20⌋ % 3 := by
    rw [modeIndex, hn]
    have h1 : Int.tmod (n : ℤ) ((3 : ℕ) : ℤ) = (((n % 3 : ℕ) : ℕ) : ℤ) :=
      (Int.ofNat_tmod n 3).symm
    simpa using h1
  refine ⟨heq, ?_, ?_, ?_⟩
  · rw [heq]
    exact Int.emod_nonneg _ (by norm_num)
  · rw [heq]
    exact Int.emod_lt_of_pos _ (by norm_num)
  · intro t' ht'
    rw [ht']

/-- Witness for C3 at `t = 45`: the mode index is `⌊45/20⌋ mod 3 = 2`, within
`{0, 1, 2}`. -/
theorem mode_selection_pure_witness :
    (modeIndex 45 = ⌊(45 : ℚ) / 20⌋ % 3 ∧
      0 ≤ modeIndex 45 ∧ modeIndex 45 < 3 ∧
      ∀ t' : ℚ, t' = 45 → modeIndex t' = modeIndex 45) ∧
    modeIndex 45 = 2 := by
  constructor
  · exact mode_selection_pure 45 (by norm_num)
  · have h : ((45 : ℚ) / 20) = 2.25 := by norm_num
    rw [modeIndex, h]
    norm_num [Int.floor_eq_iff]
    decide

/-!  C4. -/

set_option maxRecDepth 4000 in
/-- C4: when the capture-device request fails, `start` fails soft: afterwards
`ready` is true, the simulated flag is raised, the retained status message is
the (non-empty) simulated-mode string, the returned result carries
`success = false`, and subsequent frames still work on full data — the next
`getAudioData` call returns a 256-bin frequency frame and the animator loop
still emits one instance write per pooled particle (`COUNT` of them). -/
theorem start_failure_soft :
    (start false initAudioState).1.ready = true ∧
    (start false initAudioState).1.isSimulated = true ∧
    (start false initAudioState).1.error = some simulatedModeMsg ∧
    simulatedModeMsg ≠ "" ∧
    (start false initAudioState).2.success = false ∧
    (∀ (s : ℚ → ℚ) (r : ℕ → ℚ) (mic : List ℚ),
      ((getAudioData s r mic (start false initAudioState).1).2.frequency).length = 256) ∧
    (∀ (fi : FrameInput) (k : ℕ) (rand : ℕ → ℚ),
      ((runSeq fi (mkParticles rand) 0 k).2.1).length = COUNT) := by
  refine ⟨rfl, rfl, rfl, by decide, rfl, ?_, ?_⟩
  · intro s r mic
    have h : (getAudioData s r mic (start false initAudioState).1).2.frequency
        = simFreq s r (simNextTime 0) (List.replicate 256 (0 : ℚ)).length := rfl
    rw [h, simFreq_length, List.length_replicate]
  · intro fi k rand
    rw [runSeq_writes_length fi (mkParticles rand) 0 k, mkParticles_length]

/-!  C5. -/

/-- C5 (amended): every simulated bin value lies in `[0, 255]` at every call,
for every sine oracle and noise stream and every bin index; the internal
simulated-time counter advances by exactly `0.016` on every simulated
`getAudioData` call, hence is strictly increasing; and the mean over the
generator's bass band (bins `0..19`) strictly exceeds the mean over the high
band (bins `100..255`) at every call where the slow bass wave's sine values
are nonnegative over the band (with the sine bounded by 1 in absolute value
and the noise draws in `[0, 1)`, as `Math.sin` and `Math.random` are).  The
comparison does not hold at every call unconditionally: when the bass carrier
is near the bottom of its cycle it reverses (see the counterexample). -/
theorem simulated_data_spec :
    (∀ (s : ℚ → ℚ) (r : ℕ → ℚ) (t : ℚ) (i : ℕ),
      0 ≤ simBin s r t i ∧ simBin s r t i ≤ 255) ∧
    (∀ t : ℚ, simNextTime t = t + 0.016 ∧ t < simNextTime t) ∧
    (∀ (s : ℚ → ℚ) (r : ℕ → ℚ) (mic : List ℚ) (st : AudioState) (arr : List ℚ),
      st.dataArray = some arr → st.isSimulated = true →
      (getAudioData s r mic st).1.simTime = simNextTime st.simTime) ∧
    (∀ (s : ℚ → ℚ) (r : ℕ → ℚ) (t : ℚ),
      (∀ x : ℚ, -1 ≤ s x ∧ s x ≤ 1) →
      (∀ j : ℕ, 0 ≤ r j ∧ r j < 1) →
      (∀ i : ℕ, i < 20 → 0 ≤ s (t * 2 + (i : ℚ) * 0.02)) →
      getAverage (simFreq s r t 256) 100 256 <
        getAverage (simFreq s r t 256) 0 20) := by
  refine ⟨?_, ?_, ?_, ?_⟩
  · intro s r t i
    exact simBin_mem s r t i
  · intro t
    refine ⟨rfl, ?_⟩
    rw [simNextTime]
    have h : (0 : ℚ) < 0.016 := by norm_num
    linarith
  · intro s r mic st arr hda hsim
    obtain ⟨rd, er, sim, an, da, ti⟩ := st
    dsimp only at hda hsim
    subst hda
    subst hsim
    rfl
  · intro s r t hs hr hpos
    have hhigh : getAverage (simFreq s r t 256) 100 256 ≤ 69 + simBeat s t := by
      refine getAverage_le _ 100 256 _ (by norm_num) ?_
      intro i h1 h2
      rw [simFreq_getD s r t 256 i h2]
      exact simBin_high_upper s r t i h1 (hs _).2 (hr i).2
    have hbass : (100 : ℚ) + simBeat s t ≤ getAverage (simFreq s r t 256) 0 20 := by
      refine le_getAverage _ 0 20 _ (by norm_num) ?_
      intro i h1 h2
      rw [simFreq_getD s r t 256 i (by omega)]
      exact simBin_bass_lower s r t i h2 (hpos i h2) (hr i).1
    linarith

/-- Witness for C5 at concrete inputs: with the constant-zero sine oracle and
noise stream at call time `1`, bin 5 is a byte, the counter advances from `1`
to `1.016`, the hook's simulated branch advances its stored counter the same
way, and the bass-band mean strictly exceeds the high-band mean. -/
theorem simulated_data_spec_witness :
    (0 ≤ simBin sZero rZero 1 5 ∧ simBin sZero rZero 1 5 ≤ 255) ∧
    (simNextTime 1 = 1 + 0.016 ∧ (1 : ℚ) < simNextTime 1) ∧
    (getAudioData sZero rZero [] (start false initAudioState).1).1.simTime =
      simNextTime (start false initAudioState).1.simTime ∧
    getAverage (simFreq sZero rZero 1 256) 100 256 <
      getAverage (simFreq sZero rZero 1 256) 0 20 := by
  refine ⟨simulated_data_spec.1 sZero rZero 1 5, simulated_data_spec.2.1 1, ?_, ?_⟩
  · exact simulated_data_spec.2.2.1 sZero rZero [] _ (List.replicate 256 0) rfl rfl
  · refine simulated_data_spec.2.2.2 sZero rZero 1 ?_ ?_ ?_
    · intro x
      constructor <;> norm_num [sZero]
    · intro j
      constructor <;> norm_num [rZero]
    · intro i hi
      norm_num [sZero]

/-- Counterexample to C5 as stated: the bass-over-high mean comparison is not
an every-call property of the generator.  With admissible oracle values — a
sine value profile constantly `-1` (bounded by 1 in absolute value, as
`Math.sin` is; the real `Math.sin` approaches it when the slow wave sits at
the bottom of its cycle, e.g. `2t` near `3π/2`) and zero noise — every bass
bin is `0` while every high bin is `10`, so the bass mean `0` is strictly
below the high mean `10`. -/
theorem simulated_data_bass_counterexample :
    ¬ (∀ (s : ℚ → ℚ) (r : ℕ → ℚ) (t : ℚ),
        (∀ x : ℚ, -1 ≤ s x ∧ s x ≤ 1) →
        (∀ j : ℕ, 0 ≤ r j ∧ r j < 1) →
        getAverage (simFreq s r t 256) 100 256 <
          getAverage (simFreq s r t 256) 0 20) := by
  intro hcl
  have h := hcl sNegOne rZero 1
    (fun x => by constructor <;> norm_num [sNegOne])
    (fun j => by constructor <;> norm_num [rZero])
  have hb : getAverage (simFreq sNegOne rZero 1 256) 0 20 = 0 := by
    have hpt : ∀ i, 0 ≤ i → i < 20 → (simFreq sNegOne rZero 1 256).getD i 0 = 0 := by
      intro i h1 h2
      rw [simFreq_getD sNegOne rZero 1 256 i (by omega)]
      have hbin : simBin sNegOne rZero 1 i = 0 := by
        simp only [simBin, simBeat, sNegOne, rZero]
        rw [if_pos h2]
        norm_num
      rw [hbin]
      norm_num
    refine le_antisymm ?_ ?_
    · exact getAverage_le _ 0 20 0 (by norm_num) (fun i a b => le_of_eq (hpt i a b))
    · exact le_getAverage _ 0 20 0 (by norm_num) (fun i a b => le_of_eq (hpt i a b).symm)
  have hh : getAverage (simFreq sNegOne rZero 1 256) 100 256 = 10 := by
    have hpt : ∀ i, 100 ≤ i → i < 256 →
        (simFreq sNegOne rZero 1 256).getD i 0 = 10 := by
      intro i h1 h2
      rw [simFreq_getD sNegOne rZero 1 256 i h2]
      have hbin : simBin sNegOne rZero 1 i = 10 := by
        simp only [simBin, simBeat, sNegOne, rZero]
        rw [if_neg (by omega), if_neg (by omega)]
        norm_num
      rw [hbin]
      norm_num
    refine le_antisymm ?_ ?_
    · exact getAverage_le _ 100 256 10 (by norm_num) (fun i a b => le_of_eq (hpt i a b))
    · exact le_getAverage _ 100 256 10 (by norm_num)
        (fun i a b => le_of_eq (hpt i a b).symm)
  rw [hb, hh] at h
  norm_num at h

/-!  C6. -/

/-- C6: on every frame the animator loop emits exactly one write — a transform
and a color — for every slot `0, …, |pool|-1`, in order, regardless of mode,
audio, cursor or random draws (`fi` carries all of these); the pool built at
mount has exactly `COUNT = 10000` particles, matching the instance count
passed to the instanced mesh. -/
theorem instance_buffer_full_writes :
    ∀ (fi : FrameInput) (ps : List Particle) (k : ℕ) (rand : ℕ → ℚ),
      ((runSeq fi ps 0 k).2.1).length = ps.length ∧
      ((runSeq fi ps 0 k).2.1).map (fun w => w.1) = List.range ps.length ∧
      (mkParticles rand).length = COUNT ∧
      ((runSeq fi (mkParticles rand) 0 k).2.1).map (fun w => w.1) = List.range COUNT ∧
      instancedMeshCount = COUNT := by
  intro fi ps k rand
  refine ⟨runSeq_writes_length fi ps 0 k, ?_, mkParticles_length rand, ?_, rfl⟩
  · rw [runSeq_writes_slots fi ps 0 k, List.range_eq_range']
  · rw [runSeq_writes_slots fi (mkParticles rand) 0 k, mkParticles_length,
      List.range_eq_range']

/-!  C7. -/

/-- C7: querying `getAudioData` on the initial hook state (no analyser, not
simulated, no data array) returns a zero-length frequency array and an average
closure that returns `0` for every argument pair. -/
theorem getAudioData_uninitialized_zero :
    ∀ (s : ℚ → ℚ) (r : ℕ → ℚ) (mic : List ℚ),
      (getAudioData s r mic initAudioState).2.frequency = [] ∧
      ∀ a b : ℕ, (getAudioData s r mic initAudioState).2.getAvg a b = 0 := by
  intro s r mic
  exact ⟨rfl, fun a b => rfl⟩

/-!  C9. -/

/-- C9: the per-frame update mutates only the longitudinal coordinate.  In the
COUNT = 10000 variant the loop body preserves `angle`, `radiusBase`,
`speedOffset`, `rotationSpeed`, `id` and `randomColor` and sets `z` to exactly
the advanced-and-wrapped value `newZ`; the whole loop maps the pool pointwise,
so its size is constant and no particle is created or destroyed.  In the
COUNT = 2000 variant (`SceneContainer.tsx`) the update likewise preserves all
fields but `z`. -/
theorem frame_mutates_only_z :
    (∀ (fi : FrameInput) (p : Particle) (k : ℕ),
      (instStep fi p k).1.angle = p.angle ∧
      (instStep fi p k).1.radiusBase = p.radiusBase ∧
      (instStep fi p k).1.speedOffset = p.speedOffset ∧
      (instStep fi p k).1.rotationSpeed = p.rotationSpeed ∧
      (instStep fi p k).1.id = p.id ∧
      (instStep fi p k).1.randomColor = p.randomColor ∧
      (instStep fi p k).1.z = newZ fi p) ∧
    (∀ (fi : FrameInput) (ps : List Particle) (i k : ℕ),
      ((runSeq fi ps i k).1).length = ps.length ∧
      (runSeq fi ps i k).1 = ps.map (fun q => { q with z := newZ fi q })) ∧
    (∀ (baseSpeed delta : ℚ) (q : WTParticle),
      (wtUpdateZ baseSpeed delta q).x = q.x ∧
      (wtUpdateZ baseSpeed delta q).y = q.y ∧
      (wtUpdateZ baseSpeed delta q).originalZ = q.originalZ ∧
      (wtUpdateZ baseSpeed delta q).speedMod = q.speedMod ∧
      (wtUpdateZ baseSpeed delta q).colorPhase = q.colorPhase ∧
      (wtUpdateZ baseSpeed delta q).z =
        wrapAdvance 100 (baseSpeed * q.speedMod * delta) q.z) := by
  refine ⟨?_, ?_, ?_⟩
  · intro fi p k
    rw [instStep_fst fi p k]
    exact ⟨rfl, rfl, rfl, rfl, rfl, rfl, rfl⟩
  · intro fi ps i k
    refine ⟨?_, runSeq_particles fi ps i k⟩
    rw [runSeq_particles fi ps i k, List.length_map]
  · intro baseSpeed delta q
    exact ⟨rfl, rfl, rfl, rfl, rfl, rfl⟩

/-!  C10. -/

/-- C10 (implicit): in the App variants that guard `setStarted` on the error
state, the guard reads the `error` value captured before `start()` resolved,
which is `none` in the initial state; hence one invocation of `handleStart`
from the initial state always sets `started = true` — for either outcome of
the device request — and in the denied case the scene mounts even though the
audio state now carries the freshly set non-empty error message. -/
theorem handleStart_stale_error_guard :
    initAppState.audio.error = none ∧
    (∀ micOk : Bool,
      (handleStart initAppState.audio.error micOk initAppState).started = true) ∧
    (handleStart initAppState.audio.error false initAppState).audio.error =
      some simulatedModeMsg ∧
    (handleStart initAppState.audio.error false initAppState).audio.isSimulated
      = true := by
  refine ⟨rfl, ?_, rfl, rfl⟩
  intro micOk
  rfl

/-!  C8. -/

/-- C8 (amended): the per-frame particle updates are order-independent in
their longitudinal coordinates and instance transforms: processing the pool in
any order (each particle still writing to its own slot, with the shared
`Math.random` draw counter threaded along the processing sequence) writes into
every processed slot exactly the transform `instTransform` of that slot's own
particle, a function of that particle's prior state and the shared frame
inputs alone, and updates the pool pointwise by `newZ`, independently of the
draw counter.  Colors are not covered: the sparkle/flash draws consume the
shared sequential `Math.random` stream, so flash colors depend on processing
order (see the counterexample). -/
theorem particle_update_order_independence :
    ∀ (fi : FrameInput) (ps : List Particle) (order : List ℕ) (k : ℕ),
      (runOrder fi ps order k).map (fun w => (w.1, w.2.1)) =
        order.filterMap (fun i => (ps[i]?).map (fun p => (i, instTransform fi p))) ∧
      (∀ k' : ℕ, (runSeq fi ps 0 k).1 = (runSeq fi ps 0 k').1) ∧
      (runSeq fi ps 0 k).1 = ps.map (fun q => { q with z := newZ fi q }) := by
  intro fi ps order k
  refine ⟨?_, ?_, runSeq_particles fi ps 0 k⟩
  · induction order generalizing k with
    | nil => rfl
    | cons i rest ih =>
      cases h : ps[i]? with
      | none => simp [runOrder, h, ih]
      | some p => simp [runOrder, h, ih, instStep_transform]
  · intro k'
    rw [runSeq_particles, runSeq_particles]

/-- Counterexample to C8 as stated: with two identical particles in
DIAMOND_CAVE mode and the shared `Math.random` stream `0, 9/10, 9/10, …`, the
particle processed first draws `0 < 0.02` and flashes
(color `(9/10, 1, 9/10)`), while the other draws `9/10` and stays icy
(color `(0.55, 0.4, 0.1)`); swapping the processing order therefore changes
the color written into slot 0, so the update is not an order-independent map
of slot colors.  (The sine/cosine/square-root oracles are constants here; the
disagreement is forced by the draw order alone — the force-field branch is not
entered since the square-root value `11` exceeds `8`.) -/
theorem particle_update_order_counterexample :
    colorAt (runOrder cexFrameInput [cexParticle 0, cexParticle 1] [0, 1] 0) 0 ≠
      colorAt (runOrder cexFrameInput [cexParticle 0, cexParticle 1] [1, 0] 0) 0 := by
  norm_num [runOrder, instStep, cexFrameInput, cexParticle, modeIndex_twenty,
    bassOf, midsOf, highsOf, getAverage_replicate_zero, colorAt, List.find?,
    ColorHSL.mk.injEq, show ((1 : ℕ) == 0) = false from rfl,
    show ((0 : ℕ) == 0) = true from rfl]

end SonicVoice
